import Mathlib

/-!
Shallow embedding of the temporal aggregation core of `src/src/App.jsx`
(the activity-timeline dashboard): the BarGraph `processedData` pass
(monthly / daily / weekly bucket aggregation with period-over-period trend)
and the HeatmapChart `processDataByGranularity` pass (per
(activityType, period) cells with dominant status and normalized intensity).

Modelling conventions:
* An event date is modelled as its calendar day, an absolute day number
  counted from 1969-12-28 (a Sunday), so that `startOfWeek` (date-fns with
  the default Sunday week start) is plain arithmetic modulo 7.  The ISO
  month key `yyyy-MM` obtained via `format(parseISO(date), "yyyy-MM")` is
  recovered from the day number by `monthKey`, a translation of standard
  Gregorian civil-from-days arithmetic; its values are linearised as
  `year * 12 + month`, which is ordered exactly like the `yyyy-MM` strings.
* JavaScript number arithmetic on trend percentages and intensities is
  modelled exactly over `ℚ`; `Math.round` is `jsRound q = ⌊q + 1/2⌋`
  (round half toward positive infinity, as in JavaScript).
* `Array.from(new Set(xs))` keeps the first occurrence of each element and
  is modelled by `uniqueFirst`; the subsequent `.sort()` on ISO date or
  month strings is chronological and is modelled by sorting the numeric
  keys with `List.insertionSort`.
* The JavaScript dictionary passes (`monthlyData`, `dailyData`) that tally
  events per key and are then read back per sorted key are modelled
  extensionally: the tally stored under key `k` equals the filter of the
  input on key `k`.
* The heatmap defensive filters `data.filter(d => d && d.date)` are the
  identity here because every modelled event carries a day number; the
  activity-type truthiness filter `d && d.activityType` is kept as the
  test `activityType ≠ ""` (the empty string is the only falsy string).
* The `eachWeekOfInterval` call in the weekly BarGraph branch throws a
  `RangeError("Invalid interval")` when the input is empty (then
  `dates[0]` is `undefined` and `parseISO` yields an invalid date), so the
  weekly bar aggregation is modelled in `Except String`.
-/

/-- Event status, the closed enum used throughout `App.jsx`. -/
inductive Status
  | success
  | warning
  | fail
deriving DecidableEq

/-- Tri-state trend direction of a bar-chart bucket. -/
inductive TrendDir
  | up
  | down
  | stable
deriving DecidableEq

/-- The three granularities of the documented aggregation core. -/
inductive Granularity
  | daily
  | weekly
  | monthly
deriving DecidableEq

/-- An input activity event: its calendar day (absolute day number with
day 0 = 1969-12-28, a Sunday), its activity type and its status. -/
structure Event where
  date : ℕ
  activityType : String
  status : Status
deriving DecidableEq

/-- JavaScript `Math.round`: round half toward positive infinity. -/
def jsRound (q : ℚ) : ℤ := ⌊q + 1/2⌋

/-- Number of events of status `s` in `evs` (the per-status tallies
`bucket[event.status]++` of the source, read extensionally). -/
def statusCount (evs : List Event) (s : Status) : ℕ :=
  (evs.filter (fun e => e.status = s)).length

/-- Helper for `uniqueFirst`: drop elements already seen. -/
def uniqueFirstAux {α : Type} [DecidableEq α] (seen : List α) : List α → List α
  | [] => []
  | a :: rest =>
    if a ∈ seen then uniqueFirstAux seen rest
    else a :: uniqueFirstAux (a :: seen) rest

/-- JavaScript `Array.from(new Set(l))`: deduplicate keeping the first
occurrence of each element. -/
def uniqueFirst {α : Type} [DecidableEq α] (l : List α) : List α :=
  uniqueFirstAux [] l

/-- The sorted list of distinct event days:
`Array.from(new Set(data.map(d => d.date))).sort()` (used by the BarGraph
as `dates` and by the HeatmapChart, where the defensive
`filter(d => d && d.date)` is the identity on modelled events). -/
def sortedDates (data : List Event) : List ℕ :=
  List.insertionSort (· ≤ ·) (uniqueFirst (data.map (fun e => e.date)))

/-- date-fns `startOfWeek` (week starts on Sunday; day 0 is a Sunday). -/
def startOfWeek (d : ℕ) : ℕ := d - d % 7

/-- date-fns `endOfWeek`: the last day (Saturday) of the week of `d`. -/
def endOfWeek (d : ℕ) : ℕ := startOfWeek d + 6

/-- The ISO month key `format(parseISO(date), "yyyy-MM")` of a day number,
linearised as `year * 12 + month`.  Gregorian civil-from-days arithmetic:
`d + 719464` is the count of days since 0000-03-01 of the proleptic
Gregorian calendar (since day 0 is 1969-12-28 = 719468 - 4 days after it). -/
def monthKey (d : ℕ) : ℕ :=
  let z := d + 719464
  let era := z / 146097
  let doe := z % 146097
  let yoe := (doe - doe / 1460 + doe / 36524 - doe / 146096) / 365
  let y := yoe + era * 400
  let doy := doe - (365 * yoe + yoe / 4 - yoe / 100)
  let mp := (5 * doy + 2) / 153
  if mp < 10 then y * 12 + (mp + 3) else (y + 1) * 12 + (mp - 9)

/-- The raw (unrounded) period-over-period trend percentage, one branch per
granularity, mirroring the three BarGraph sites:
* monthly: `previous ? ((current.total - previous.total) / previous.total) * 100 : 0`
* daily: `previous ? ((current.total - previous.total) / Math.max(previous.total, 1)) * 100 : 0`
* weekly: `prevWeekEvents.length > 0 ? ((weekData.total - prevWeekEvents.length) / prevWeekEvents.length) * 100 : 0`
`prev = none` is the first bucket (`index > 0` fails). -/
def rawTrend : Granularity → Option ℕ → ℕ → ℚ
  | _, none, _ => 0
  | .monthly, some p, t => ((t : ℚ) - (p : ℚ)) / (p : ℚ) * 100
  | .daily, some p, t => ((t : ℚ) - (p : ℚ)) / max (p : ℚ) 1 * 100
  | .weekly, some p, t =>
    if 0 < p then ((t : ℚ) - (p : ℚ)) / (p : ℚ) * 100 else 0

/-- `trend > 0 ? 'up' : trend < 0 ? 'down' : 'stable'` — computed from the
raw, unrounded trend value. -/
def trendDir (raw : ℚ) : TrendDir :=
  if 0 < raw then .up else if raw < 0 then .down else .stable

/-- A render-ready bar-chart bucket: period key, total, per-status counts,
rounded trend percent and trend direction. -/
structure Bucket where
  period : ℕ
  total : ℕ
  success : ℕ
  warning : ℕ
  fail : ℕ
  trend : ℤ
  trendDirection : TrendDir

/-- Build one bucket from its period key `k`, its selected events `sel`
and the total of the previous bucket (`none` for the first bucket). -/
def mkB (g : Granularity) (prev : Option ℕ) (k : ℕ) (sel : List Event) : Bucket :=
  let raw := rawTrend g prev sel.length
  { period := k
    total := sel.length
    success := statusCount sel .success
    warning := statusCount sel .warning
    fail := statusCount sel .fail
    trend := jsRound raw
    trendDirection := trendDir raw }

/-- Walk the sorted period keys, carrying the previous total exactly as the
source reads `monthlyData[months[index - 1]]` / `dailyData[dates[index - 1]]`
/ `prevWeekEvents.length`. -/
def bucketsGo (g : Granularity) (evs : ℕ → List Event) :
    Option ℕ → List ℕ → List Bucket
  | _, [] => []
  | prev, k :: ks => mkB g prev k (evs k) :: bucketsGo g evs (some (evs k).length) ks

/-- Events of month `m`: the tally `monthlyData[month]` read extensionally. -/
def monthEvents (data : List Event) (m : ℕ) : List Event :=
  data.filter (fun e => monthKey e.date = m)

/-- `Object.keys(monthlyData).sort()`: the distinct month keys of the data,
in insertion (first-occurrence) order, then sorted. -/
def monthKeysOf (data : List Event) : List ℕ :=
  List.insertionSort (· ≤ ·) (uniqueFirst (data.map (fun e => monthKey e.date)))

/-- BarGraph monthly branch of `processedData`. -/
def monthlyBuckets (data : List Event) : List Bucket :=
  bucketsGo .monthly (monthEvents data) none (monthKeysOf data)

/-- Events of day `k`: the tally `dailyData[date]` read extensionally. -/
def dayEvents (data : List Event) (k : ℕ) : List Event :=
  data.filter (fun e => e.date = k)

/-- BarGraph daily branch of `processedData`: one bucket per element of
`dates` (the distinct observed event days), in sorted order. -/
def dailyBuckets (data : List Event) : List Bucket :=
  bucketsGo .daily (dayEvents data) none (sortedDates data)

/-- date-fns `eachWeekOfInterval({start: first, end: last})`: the week
starts from `startOfWeek first` to `startOfWeek last` inclusive, stepping
one week at a time. -/
def weekKeys (first last : ℕ) : List ℕ :=
  (List.range ((startOfWeek last - startOfWeek first) / 7 + 1)).map
    (fun i => startOfWeek first + 7 * i)

/-- Events inside the closed week window of week-start `w`:
`eventDate >= weekStart && eventDate <= weekEnd`. -/
def weekEvents (data : List Event) (w : ℕ) : List Event :=
  data.filter (fun e => startOfWeek w ≤ e.date ∧ e.date ≤ endOfWeek w)

/-- BarGraph weekly branch of `processedData`.  On an empty input
`dates[0]` is `undefined`, `parseISO` returns an invalid date and
`eachWeekOfInterval` throws `RangeError("Invalid interval")`; this is
modelled as an `Except.error`. -/
def weeklyBuckets (data : List Event) : Except String (List Bucket) :=
  match sortedDates data with
  | [] => .error "Invalid interval"
  | f :: rest =>
    .ok (bucketsGo .weekly (weekEvents data) none
      (weekKeys f ((f :: rest).getLastD 0)))

/-- BarGraph `processedData`, dispatching on granularity. -/
def barBuckets : Granularity → List Event → Except String (List Bucket)
  | .monthly, data => .ok (monthlyBuckets data)
  | .daily, data => .ok (dailyBuckets data)
  | .weekly, data => weeklyBuckets data

/-- A heatmap cell for one (activityType, period) pair. -/
structure Cell where
  activityType : String
  period : ℕ
  status : Option Status
  events : List Event
  count : ℕ
  intensity : ℚ

/-- Dominant status of a non-empty cell: `statusCounts.fail` truthy wins,
then `statusCounts.warning`, else `success`. -/
def dominantStatus (evs : List Event) : Status :=
  if 0 < statusCount evs .fail then .fail
  else if 0 < statusCount evs .warning then .warning
  else .success

/-- Build one heatmap cell: status and intensity stay `null` / `0` when the
cell has no events, otherwise the dominant status and
`events.length / denom` (the caller passes the granularity-specific
`Math.max(..., 1)` denominator). -/
def mkCell (type : String) (p : ℕ) (evs : List Event) (denom : ℕ) : Cell :=
  if 0 < evs.length then
    { activityType := type
      period := p
      status := some (dominantStatus evs)
      events := evs
      count := evs.length
      intensity := (evs.length : ℚ) / (denom : ℚ) }
  else
    { activityType := type
      period := p
      status := none
      events := evs
      count := evs.length
      intensity := 0 }

/-- Heatmap `activityTypes`:
`Array.from(new Set(data.filter(d => d && d.activityType).map(d => d.activityType)))`;
the truthiness test keeps exactly the non-empty activity-type strings. -/
def heatTypes (data : List Event) : List String :=
  uniqueFirst ((data.filter (fun d => d.activityType ≠ "")).map
    (fun d => d.activityType))

/-- Heatmap monthly keys:
`Array.from(new Set(dates.map(date => format(parseISO(date), "yyyy-MM"))))`
(not re-sorted; `dates` is already sorted). -/
def heatMonths (data : List Event) : List ℕ :=
  uniqueFirst ((sortedDates data).map monthKey)

/-- Heatmap weekly bins: `validDates.length > 0 ? eachWeekOfInterval(...) : []`
(the guarded branch, so the empty input yields no weeks). -/
def heatWeeks (data : List Event) : List ℕ :=
  match sortedDates data with
  | [] => []
  | f :: rest => weekKeys f ((f :: rest).getLastD 0)

/-- Daily cell events: `data.filter(d => d.date === date && d.activityType === activityType)`. -/
def dayCellEvents (data : List Event) (type : String) (day : ℕ) : List Event :=
  data.filter (fun d => d.date = day ∧ d.activityType = type)

/-- Monthly cell events:
`data.filter(d => format(parseISO(d.date), "yyyy-MM") === month && d.activityType === activityType)`. -/
def monthCellEvents (data : List Event) (type : String) (m : ℕ) : List Event :=
  data.filter (fun d => monthKey d.date = m ∧ d.activityType = type)

/-- Weekly cell events:
`data.filter(d => d.activityType === type && eventDate >= weekStart && eventDate <= weekEnd)`. -/
def weekCellEvents (data : List Event) (type : String) (w : ℕ) : List Event :=
  data.filter (fun d => d.activityType = type ∧ startOfWeek w ≤ d.date ∧ d.date ≤ endOfWeek w)

/-- Daily intensity denominator:
`Math.max(...dates.map(d => sameTypeCountOn d), 1)` for one activity type. -/
def dailyMaxCount (data : List Event) (type : String) : ℕ :=
  (((sortedDates data).map (fun d => (dayCellEvents data type d).length)).foldr max 1)

/-- Monthly intensity denominator:
`Math.max(...months.map(m => sameTypeCountIn m), 1)` for one activity type. -/
def monthlyMaxCount (data : List Event) (type : String) : ℕ :=
  (((heatMonths data).map (fun m => (monthCellEvents data type m).length)).foldr max 1)

/-- Weekly intensity denominator: the nested
`Math.max(...activityTypes.map(type => Math.max(...typeWeeks, 1)), 1)`
over every (activityType, week) combination. -/
def weeklyMaxCount (data : List Event) : ℕ :=
  (((heatTypes data).map (fun type =>
    (((heatWeeks data).map (fun w => (weekCellEvents data type w).length)).foldr max 1))).foldr max 1)

/-- Heatmap daily grid: `activityTypes.map(type => dates.map(...)).flat()`. -/
def gridDaily (data : List Event) : List Cell :=
  (((heatTypes data).map (fun type =>
    (sortedDates data).map (fun day =>
      mkCell type day (dayCellEvents data type day) (dailyMaxCount data type)))).flatten)

/-- Heatmap monthly grid: `activityTypes.map(type => months.map(...)).flat()`. -/
def gridMonthly (data : List Event) : List Cell :=
  (((heatTypes data).map (fun type =>
    (heatMonths data).map (fun m =>
      mkCell type m (monthCellEvents data type m) (monthlyMaxCount data type)))).flatten)

/-- Heatmap weekly grid: `activityTypes.map(type => weeks.map(...)).flat()`. -/
def gridWeekly (data : List Event) : List Cell :=
  (((heatTypes data).map (fun type =>
    (heatWeeks data).map (fun w =>
      mkCell type w (weekCellEvents data type w) (weeklyMaxCount data)))).flatten)

/-- Heatmap `processDataByGranularity`, dispatching on granularity. -/
def gridData : Granularity → List Event → List Cell
  | .daily, data => gridDaily data
  | .monthly, data => gridMonthly data
  | .weekly, data => gridWeekly data

/-- Maximum of a list of naturals (0 on the empty list). -/
def listMax (l : List ℕ) : ℕ := l.foldr max 0

/-- The comparison-set denominator exactly as the claim describes it: the
maximum count over all bins of the same activity type across all periods
(daily / monthly), or over every (activityType, week) combination across
all activity types (weekly), clamped to at least 1. -/
def claimDenom (g : Granularity) (data : List Event) (type : String) : ℕ :=
  match g with
  | .daily =>
    max (listMax ((sortedDates data).map
      (fun d => (dayCellEvents data type d).length))) 1
  | .monthly =>
    max (listMax ((heatMonths data).map
      (fun m => (monthCellEvents data type m).length))) 1
  | .weekly =>
    max (listMax (((heatTypes data).map (fun t =>
      (heatWeeks data).map (fun w => (weekCellEvents data t w).length))).flatten)) 1

/-- Membership of an event in the period of a cell, per granularity. -/
def periodMatch (g : Granularity) (p : ℕ) (e : Event) : Prop :=
  match g with
  | .daily => e.date = p
  | .monthly => monthKey e.date = p
  | .weekly => startOfWeek p ≤ e.date ∧ e.date ≤ endOfWeek p

/-! ### Concrete inputs used by counterexamples and witnesses -/

/-- Two events fourteen days apart (day 0 and day 14): the middle week
(days 7 to 13) is empty, which exercises the weekly trend guard. -/
def c1ex : List Event :=
  [{ date := 0, activityType := "login", status := .success },
   { date := 14, activityType := "login", status := .success }]

/-- Events on 2024-01-01 (day 19727) and 2024-01-03 (day 19729) with no
event on 2024-01-02, the scenario named by the daily-gap claim. -/
def c2ex : List Event :=
  [{ date := 19727, activityType := "login", status := .success },
   { date := 19729, activityType := "login", status := .warning }]

/-- 201 events on day 10 followed by 202 events on day 11: the raw
day-over-day change is 100/201 percent, strictly between 0 and 0.5. -/
def c4ex : List Event :=
  List.replicate 201 { date := 10, activityType := "login", status := .success } ++
  List.replicate 202 { date := 11, activityType := "login", status := .success }

/-- Witness input: a success event on 2024-01-01 (day 19727) and a fail
event on 2024-01-09 (day 19735), two different weeks of the same month. -/
def wex : List Event :=
  [{ date := 19727, activityType := "login", status := .success },
   { date := 19735, activityType := "auth", status := .fail }]

/-- The weekly bucket list produced for `wex` (weeks start on days 19726
and 19733). -/
def wbs : List Bucket :=
  bucketsGo .weekly (weekEvents wex) none (weekKeys 19727 19735)

/-- The first daily bucket produced for `wex`. -/
def wb1 : Bucket := mkB .daily none 19727 (dayEvents wex 19727)

/-- The single monthly bucket produced for `wex` (January 2024 has month
key 2024 * 12 + 1 = 24289). -/
def wmb : Bucket := mkB .monthly none 24289 (monthEvents wex 24289)

/-- Witness input for the heatmap claims: one fail event on day 10. -/
def hex1 : List Event :=
  [{ date := 10, activityType := "scan", status := .fail }]

/-- The single daily heatmap cell produced for `hex1`. -/
def hcell : Cell :=
  mkCell "scan" 10 (dayCellEvents hex1 "scan" 10) (dailyMaxCount hex1 "scan")

/-! ### Basic lemmas about the building blocks -/

theorem mem_uniqueFirstAux {α : Type} [DecidableEq α] {x : α} :
    ∀ {seen l : List α}, x ∈ uniqueFirstAux seen l ↔ x ∈ l ∧ x ∉ seen := by
  intro seen l
  induction l generalizing seen with
  | nil => simp [uniqueFirstAux]
  | cons a rest ih =>
    by_cases ha : a ∈ seen
    · rw [uniqueFirstAux, if_pos ha, ih, List.mem_cons]
      by_cases hxa : x = a
      · subst hxa; tauto
      · tauto
    · rw [uniqueFirstAux, if_neg ha, List.mem_cons, ih, List.mem_cons, List.mem_cons]
      by_cases hxa : x = a
      · subst hxa; tauto
      · tauto

theorem mem_uniqueFirst {α : Type} [DecidableEq α] {x : α} {l : List α} :
    x ∈ uniqueFirst l ↔ x ∈ l := by
  simp [uniqueFirst, mem_uniqueFirstAux]

theorem nodup_uniqueFirstAux {α : Type} [DecidableEq α] :
    ∀ (seen l : List α), (uniqueFirstAux seen l).Nodup := by
  intro seen l
  induction l generalizing seen with
  | nil => simp [uniqueFirstAux]
  | cons a rest ih =>
    by_cases ha : a ∈ seen
    · simpa [uniqueFirstAux, if_pos ha] using ih seen
    · rw [uniqueFirstAux, if_neg ha, List.nodup_cons]
      refine ⟨fun hmem => ?_, ih (a :: seen)⟩
      exact (mem_uniqueFirstAux.mp hmem).2 (List.mem_cons_self a seen)

theorem nodup_uniqueFirst {α : Type} [DecidableEq α] (l : List α) :
    (uniqueFirst l).Nodup := nodup_uniqueFirstAux [] l

theorem mem_sortedDates {data : List Event} {k : ℕ} :
    k ∈ sortedDates data ↔ ∃ e ∈ data, e.date = k := by
  simp [sortedDates, List.mem_insertionSort, mem_uniqueFirst]

theorem nodup_sortedDates (data : List Event) : (sortedDates data).Nodup :=
  ((List.perm_insertionSort _ _).nodup_iff).mpr (nodup_uniqueFirst _)

theorem sorted_sortedDates (data : List Event) :
    List.Sorted (· ≤ ·) (sortedDates data) :=
  List.sorted_insertionSort _ _

theorem mem_monthKeysOf {data : List Event} {m : ℕ} :
    m ∈ monthKeysOf data ↔ ∃ e ∈ data, monthKey e.date = m := by
  simp [monthKeysOf, List.mem_insertionSort, mem_uniqueFirst]

theorem nodup_monthKeysOf (data : List Event) : (monthKeysOf data).Nodup :=
  ((List.perm_insertionSort _ _).nodup_iff).mpr (nodup_uniqueFirst _)

theorem statusCount_pos_iff {evs : List Event} {s : Status} :
    0 < statusCount evs s ↔ ∃ e ∈ evs, e.status = s := by
  simp [statusCount, List.length_pos, List.filter_eq_nil_iff]

theorem le_foldr_max {a b : ℕ} {l : List ℕ} (h : a ∈ l) : a ≤ l.foldr max b := by
  induction l with
  | nil => cases h
  | cons x xs ih =>
    rcases List.mem_cons.mp h with rfl | h'
    · exact Nat.le_max_left _ _
    · exact le_trans (ih h') (Nat.le_max_right _ _)

theorem init_le_foldr_max (b : ℕ) (l : List ℕ) : b ≤ l.foldr max b := by
  induction l with
  | nil => exact le_refl b
  | cons x xs ih => exact le_trans ih (Nat.le_max_right _ _)

theorem foldr_max_eq_max_listMax (b : ℕ) (l : List ℕ) :
    l.foldr max b = max (listMax l) b := by
  induction l with
  | nil => simp [listMax]
  | cons x xs ih =>
    simp only [List.foldr_cons, listMax] at *
    omega

theorem listMax_append (l₁ l₂ : List ℕ) :
    listMax (l₁ ++ l₂) = max (listMax l₁) (listMax l₂) := by
  induction l₁ with
  | nil => simp [listMax]
  | cons x xs ih =>
    simp only [listMax, List.foldr_cons, List.cons_append] at *
    omega

theorem mkB_period (g : Granularity) (prev : Option ℕ) (k : ℕ) (sel : List Event) :
    (mkB g prev k sel).period = k := rfl

theorem mkB_total (g : Granularity) (prev : Option ℕ) (k : ℕ) (sel : List Event) :
    (mkB g prev k sel).total = sel.length := rfl

theorem mkB_trend (g : Granularity) (prev : Option ℕ) (k : ℕ) (sel : List Event) :
    (mkB g prev k sel).trend = jsRound (rawTrend g prev sel.length) := rfl

theorem mkB_trendDirection (g : Granularity) (prev : Option ℕ) (k : ℕ) (sel : List Event) :
    (mkB g prev k sel).trendDirection = trendDir (rawTrend g prev sel.length) := rfl

theorem length_bucketsGo (g : Granularity) (evs : ℕ → List Event) :
    ∀ (prev : Option ℕ) (ks : List ℕ), (bucketsGo g evs prev ks).length = ks.length := by
  intro prev ks
  induction ks generalizing prev with
  | nil => rfl
  | cons k ks ih => simp [bucketsGo, ih]

theorem map_total_bucketsGo (g : Granularity) (evs : ℕ → List Event) :
    ∀ (prev : Option ℕ) (ks : List ℕ),
      (bucketsGo g evs prev ks).map Bucket.total = ks.map (fun k => (evs k).length) := by
  intro prev ks
  induction ks generalizing prev with
  | nil => rfl
  | cons k ks ih => simp [bucketsGo, ih, mkB_total]

theorem mem_bucketsGo {g : Granularity} {evs : ℕ → List Event} {b : Bucket} :
    ∀ {prev : Option ℕ} {ks : List ℕ}, b ∈ bucketsGo g evs prev ks →
      ∃ k ∈ ks, ∃ q, b = mkB g q k (evs k) := by
  intro prev ks
  induction ks generalizing prev with
  | nil => intro h; cases h
  | cons k ks ih =>
    intro h
    rcases List.mem_cons.mp h with rfl | h'
    · exact ⟨k, List.mem_cons_self k ks, prev, rfl⟩
    · rcases ih h' with ⟨k', hk', q, hq⟩
      exact ⟨k', List.mem_cons_of_mem k hk', q, hq⟩

theorem bucketsGo_get (g : Granularity) (evs : ℕ → List Event) :
    ∀ (ks : List ℕ) (prev : Option ℕ) (i : ℕ)
      (hb : i < (bucketsGo g evs prev ks).length),
      (bucketsGo g evs prev ks).get ⟨i, hb⟩ =
        mkB g (if i = 0 then prev else some ((evs (ks.getD (i - 1) 0)).length))
          (ks.getD i 0) (evs (ks.getD i 0)) := by
  intro ks
  induction ks with
  | nil =>
    intro prev i hb
    simp [bucketsGo] at hb
  | cons k ks ih =>
    intro prev i hb
    cases i with
    | zero => rfl
    | succ j =>
      have hb' : j < (bucketsGo g evs (some ((evs k).length)) ks).length := by
        simpa [bucketsGo] using hb
      have step : (bucketsGo g evs prev (k :: ks)).get ⟨j + 1, hb⟩ =
          (bucketsGo g evs (some ((evs k).length)) ks).get ⟨j, hb'⟩ := rfl
      rw [step, ih (some ((evs k).length)) j hb']
      cases j with
      | zero => rfl
      | succ m => rfl

theorem startOfWeek_eq (d : ℕ) : startOfWeek d = 7 * (d / 7) := by
  unfold startOfWeek
  omega

theorem mem_weekKeys {f l w : ℕ} :
    w ∈ weekKeys f l ↔
      ∃ i, i ≤ (startOfWeek l - startOfWeek f) / 7 ∧ w = startOfWeek f + 7 * i := by
  simp only [weekKeys, List.mem_map, List.mem_range]
  constructor
  · rintro ⟨i, hi, rfl⟩
    exact ⟨i, by omega, rfl⟩
  · rintro ⟨i, hi, rfl⟩
    exact ⟨i, by omega, rfl⟩

theorem weekKeys_aligned {f l w : ℕ} (h : w ∈ weekKeys f l) : w % 7 = 0 := by
  rcases mem_weekKeys.mp h with ⟨i, _, rfl⟩
  have hf := startOfWeek_eq f
  omega

theorem startOfWeek_mem_weekKeys {f l d : ℕ} (hf : f ≤ d) (hl : d ≤ l) :
    startOfWeek d ∈ weekKeys f l := by
  refine mem_weekKeys.mpr ⟨d / 7 - f / 7, ?_, ?_⟩
  · have h1 := startOfWeek_eq f
    have h2 := startOfWeek_eq l
    omega
  · have h1 := startOfWeek_eq f
    have h2 := startOfWeek_eq d
    omega

theorem nodup_weekKeys (f l : ℕ) : (weekKeys f l).Nodup := by
  refine (List.nodup_range _).map ?_
  intro i j hij
  simp only at hij
  omega

theorem week_window_iff {w d : ℕ} (hw : w % 7 = 0) :
    (startOfWeek w ≤ d ∧ d ≤ endOfWeek w) ↔ startOfWeek d = w := by
  unfold endOfWeek startOfWeek
  omega

theorem getLastD_mem {α : Type} : ∀ {l : List α} (d : α), l ≠ [] → l.getLastD d ∈ l := by
  intro l
  induction l with
  | nil => intro d h; exact absurd rfl h
  | cons a t ih =>
    intro d _
    cases t with
    | nil => simp [List.getLastD]
    | cons b t' =>
      rw [List.getLastD_cons]
      exact List.mem_cons_of_mem a (ih a (by simp))

theorem le_getLastD : ∀ {l : List ℕ}, List.Sorted (· ≤ ·) l →
    ∀ {x : ℕ}, x ∈ l → ∀ (d : ℕ), x ≤ l.getLastD d := by
  intro l
  induction l with
  | nil => intro _ x hx; cases hx
  | cons a t ih =>
    intro hs x hx d
    rcases List.sorted_cons.mp hs with ⟨ha, ht⟩
    cases t with
    | nil =>
      rcases List.mem_cons.mp hx with rfl | h'
      · simp [List.getLastD]
      · cases h'
    | cons b t' =>
      rw [List.getLastD_cons]
      rcases List.mem_cons.mp hx with rfl | h'
      · exact le_trans (ha b (List.mem_cons_self b t'))
          (le_trans (le_refl b) (ih ht (List.mem_cons_self b t') x))
      · exact ih ht h' a

theorem sum_map_add_distrib {α : Type} (l : List α) (f g : α → ℕ) :
    (l.map (fun x => f x + g x)).sum = (l.map f).sum + (l.map g).sum := by
  induction l with
  | nil => rfl
  | cons a t ih =>
    simp only [List.map_cons, List.sum_cons, ih]
    omega

theorem sum_ite_count {keys : List ℕ} {v : ℕ} (hnd : keys.Nodup) (hv : v ∈ keys) :
    (keys.map (fun k => if v = k then 1 else 0)).sum = 1 := by
  induction keys with
  | nil => cases hv
  | cons k ks ih =>
    rcases List.nodup_cons.mp hnd with ⟨hk, hks⟩
    rcases List.mem_cons.mp hv with rfl | h'
    · rw [List.map_cons, List.sum_cons, if_pos rfl]
      have hz : (ks.map (fun k => if v = k then 1 else 0)).sum = 0 := by
        apply List.sum_eq_zero
        intro x hx
        rcases List.mem_map.mp hx with ⟨k', hk', rfl⟩
        rw [if_neg]
        intro hvk
        exact hk (hvk ▸ hk')
      omega
    · rw [List.map_cons, List.sum_cons, if_neg, ih hks h']
      intro hvk
      exact hk (hvk ▸ h')

theorem sum_counts (f : Event → ℕ) (data : List Event) (keys : List ℕ)
    (hnd : keys.Nodup) (hcov : ∀ e ∈ data, f e ∈ keys) :
    (keys.map (fun k => (data.filter (fun e => f e = k)).length)).sum = data.length := by
  induction data with
  | nil => simp
  | cons e rest ih =>
    have hcov' : ∀ x ∈ rest, f x ∈ keys :=
      fun x hx => hcov x (List.mem_cons_of_mem e hx)
    have he : f e ∈ keys := hcov e (List.mem_cons_self e rest)
    have hk : ∀ k : ℕ, ((e :: rest).filter (fun x => f x = k)).length =
        (if f e = k then 1 else 0) + (rest.filter (fun x => f x = k)).length := by
      intro k
      by_cases h : f e = k
      · simp [List.filter_cons, h]
        omega
      · simp [List.filter_cons, h]
    simp only [hk]
    rw [sum_map_add_distrib, sum_ite_count hnd he, ih hcov']
    simp only [List.length_cons]
    omega

theorem mkCell_activityType (t : String) (p : ℕ) (evs : List Event) (d : ℕ) :
    (mkCell t p evs d).activityType = t := by
  unfold mkCell
  split <;> rfl

theorem mkCell_period (t : String) (p : ℕ) (evs : List Event) (d : ℕ) :
    (mkCell t p evs d).period = p := by
  unfold mkCell
  split <;> rfl

theorem mkCell_count (t : String) (p : ℕ) (evs : List Event) (d : ℕ) :
    (mkCell t p evs d).count = evs.length := by
  unfold mkCell
  split <;> rfl

theorem mkCell_events (t : String) (p : ℕ) (evs : List Event) (d : ℕ) :
    (mkCell t p evs d).events = evs := by
  unfold mkCell
  split <;> rfl

theorem mkCell_status_of_pos {evs : List Event} (t : String) (p : ℕ) (d : ℕ)
    (h : 0 < evs.length) : (mkCell t p evs d).status = some (dominantStatus evs) := by
  unfold mkCell
  rw [if_pos h]

theorem mkCell_intensity_of_pos {evs : List Event} (t : String) (p : ℕ) (d : ℕ)
    (h : 0 < evs.length) :
    (mkCell t p evs d).intensity = (evs.length : ℚ) / (d : ℚ) := by
  unfold mkCell
  rw [if_pos h]

theorem mkCell_intensity_of_zero {evs : List Event} (t : String) (p : ℕ) (d : ℕ)
    (h : ¬ 0 < evs.length) : (mkCell t p evs d).intensity = 0 := by
  unfold mkCell
  rw [if_neg h]

theorem mem_grid_iff (types : List String) (periods : List ℕ)
    (evs : String → ℕ → List Event) (den : String → ℕ) {cell : Cell} :
    cell ∈ (types.map (fun type =>
        periods.map (fun p => mkCell type p (evs type p) (den type)))).flatten ↔
      ∃ type ∈ types, ∃ p ∈ periods, cell = mkCell type p (evs type p) (den type) := by
  constructor
  · intro h
    rcases List.mem_flatten.mp h with ⟨l, hl, hcell⟩
    rcases List.mem_map.mp hl with ⟨type, htype, rfl⟩
    rcases List.mem_map.mp hcell with ⟨p, hp, rfl⟩
    exact ⟨type, htype, p, hp, rfl⟩
  · rintro ⟨type, htype, p, hp, rfl⟩
    exact List.mem_flatten.mpr
      ⟨_, List.mem_map.mpr ⟨type, htype, rfl⟩, List.mem_map.mpr ⟨p, hp, rfl⟩⟩

theorem map_period_bucketsGo (g : Granularity) (evs : ℕ → List Event) :
    ∀ (prev : Option ℕ) (ks : List ℕ),
      (bucketsGo g evs prev ks).map Bucket.period = ks := by
  intro prev ks
  induction ks generalizing prev with
  | nil => rfl
  | cons k ks ih => simp [bucketsGo, ih, mkB_period]

theorem dayEvents_length_pos {data : List Event} {k : ℕ}
    (hk : k ∈ sortedDates data) : 0 < (dayEvents data k).length := by
  rcases mem_sortedDates.mp hk with ⟨e, he, rfl⟩
  have hmem : e ∈ dayEvents data e.date :=
    List.mem_filter.mpr ⟨he, by simp⟩
  exact List.length_pos.mpr (List.ne_nil_of_mem hmem)

theorem monthEvents_length_pos {data : List Event} {m : ℕ}
    (hm : m ∈ monthKeysOf data) : 0 < (monthEvents data m).length := by
  rcases mem_monthKeysOf.mp hm with ⟨e, he, rfl⟩
  have hmem : e ∈ monthEvents data (monthKey e.date) :=
    List.mem_filter.mpr ⟨he, by simp⟩
  exact List.length_pos.mpr (List.ne_nil_of_mem hmem)

theorem dailyBuckets_total_pos {data : List Event} {b : Bucket}
    (hb : b ∈ dailyBuckets data) : 1 ≤ b.total := by
  rcases mem_bucketsGo hb with ⟨k, hk, q, rfl⟩
  rw [mkB_total]
  exact dayEvents_length_pos hk

theorem monthlyBuckets_total_pos {data : List Event} {b : Bucket}
    (hb : b ∈ monthlyBuckets data) : 1 ≤ b.total := by
  rcases mem_bucketsGo hb with ⟨m, hm, q, rfl⟩
  rw [mkB_total]
  exact monthEvents_length_pos hm

theorem jsRound_zero : jsRound 0 = 0 := by norm_num [jsRound]

theorem trendDir_zero : trendDir 0 = .stable := by simp [trendDir]

theorem trend_value_cases (g : Granularity) (p t : ℕ) (hp : g = .daily → 0 < p) :
    jsRound (rawTrend g (some p) t) =
      if 0 < p then jsRound (((t : ℚ) - (p : ℚ)) / (p : ℚ) * 100) else 0 := by
  cases g with
  | daily =>
    have hp' : 0 < p := hp rfl
    rw [if_pos hp']
    have hmax : max (p : ℚ) 1 = (p : ℚ) := by
      apply max_eq_left
      exact_mod_cast hp'
    simp [rawTrend, hmax]
  | monthly =>
    by_cases hp0 : 0 < p
    · rw [if_pos hp0]
      rfl
    · rw [if_neg hp0]
      have hz : (p : ℚ) = 0 := by
        have : p = 0 := by omega
        exact_mod_cast this
      simp [rawTrend, hz, jsRound_zero]
  | weekly =>
    by_cases hp0 : 0 < p
    · rw [if_pos hp0]
      simp [rawTrend, hp0]
    · rw [if_neg hp0]
      simp [rawTrend, hp0, jsRound_zero]

theorem trendDir_of_ratio_pos {p t : ℕ} (hp : 0 < p) :
    trendDir (((t : ℚ) - (p : ℚ)) / (p : ℚ) * 100) =
      if p < t then .up else if t < p then .down else .stable := by
  have hpq : (0 : ℚ) < (p : ℚ) := by exact_mod_cast hp
  rcases lt_trichotomy p t with hlt | heq | hgt
  · have hnum : (0 : ℚ) < (t : ℚ) - (p : ℚ) := by
      have : (p : ℚ) < (t : ℚ) := by exact_mod_cast hlt
      linarith
    have hraw : (0 : ℚ) < ((t : ℚ) - (p : ℚ)) / (p : ℚ) * 100 := by
      apply mul_pos (div_pos hnum hpq)
      norm_num
    rw [if_pos hlt]
    simp [trendDir, hraw]
  · subst heq
    simp [trendDir]
  · have hnum : (t : ℚ) - (p : ℚ) < 0 := by
      have : (t : ℚ) < (p : ℚ) := by exact_mod_cast hgt
      linarith
    have hraw : ((t : ℚ) - (p : ℚ)) / (p : ℚ) * 100 < 0 := by
      apply mul_neg_of_neg_of_pos (div_neg_of_neg_of_pos hnum hpq)
      norm_num
    rw [if_neg (by omega), if_pos hgt]
    simp [trendDir, hraw, asymm hraw]

theorem trend_dir_cases (g : Granularity) (p t : ℕ) (hp : g = .daily → 0 < p) :
    trendDir (rawTrend g (some p) t) =
      if 0 < p ∧ p < t then .up
      else if 0 < p ∧ t < p then .down
      else .stable := by
  by_cases hp0 : 0 < p
  · have hdir := trendDir_of_ratio_pos (t := t) hp0
    cases g with
    | daily =>
      have hmax : max (p : ℚ) 1 = (p : ℚ) := by
        apply max_eq_left
        exact_mod_cast hp0
      rw [show rawTrend .daily (some p) t =
        ((t : ℚ) - (p : ℚ)) / max (p : ℚ) 1 * 100 from rfl, hmax, hdir]
      split_ifs <;> first | rfl | omega
    | monthly =>
      rw [show rawTrend .monthly (some p) t =
        ((t : ℚ) - (p : ℚ)) / (p : ℚ) * 100 from rfl, hdir]
      split_ifs <;> first | rfl | omega
    | weekly =>
      rw [show rawTrend .weekly (some p) t =
        (if 0 < p then ((t : ℚ) - (p : ℚ)) / (p : ℚ) * 100 else 0) from rfl,
        if_pos hp0, hdir]
      split_ifs <;> first | rfl | omega
  · have hz : p = 0 := by omega
    subst hz
    rw [if_neg (by omega), if_neg (by omega)]
    cases g with
    | daily => exact absurd (hp rfl) hp0
    | monthly => simp [rawTrend, trendDir_zero]
    | weekly => simp [rawTrend, trendDir_zero]

theorem rawTrend_none (g : Granularity) (t : ℕ) : rawTrend g none t = 0 := by
  cases g <;> rfl

theorem getD_mem {l : List ℕ} {i : ℕ} (h : i < l.length) : l.getD i 0 ∈ l := by
  rw [List.getD_eq_getElem l 0 h]
  exact List.getElem_mem h

theorem sortedDates_bounds {data : List Event} {f : ℕ} {rest : List ℕ}
    (hd : sortedDates data = f :: rest) :
    ∀ e ∈ data, f ≤ e.date ∧ e.date ≤ (f :: rest).getLastD 0 := by
  intro e he
  have hmem : e.date ∈ sortedDates data := mem_sortedDates.mpr ⟨e, he, rfl⟩
  rw [hd] at hmem
  have hsort : List.Sorted (· ≤ ·) (f :: rest) := hd ▸ sorted_sortedDates data
  constructor
  · rcases List.mem_cons.mp hmem with h' | h'
    · omega
    · exact (List.sorted_cons.mp hsort).1 _ h'
  · exact le_getLastD hsort hmem 0

theorem weekEvents_eq_filter_startOfWeek {data : List Event} {w : ℕ} (hw : w % 7 = 0) :
    weekEvents data w = data.filter (fun e => startOfWeek e.date = w) := by
  apply List.filter_congr
  intro e _
  simp only [decide_eq_decide]
  exact week_window_iff hw

/-- C8: for each of the three granularities, the sum of the produced bucket
totals equals the number of input events — every event lands in exactly one
bucket, so switching granularity never changes the grand total. -/
theorem c8_total_conservation (g : Granularity) (data : List Event) (bs : List Bucket)
    (h : barBuckets g data = .ok bs) :
    (bs.map Bucket.total).sum = data.length := by
  cases g with
  | monthly =>
    simp only [barBuckets] at h
    injection h with h
    subst h
    rw [monthlyBuckets, map_total_bucketsGo]
    exact sum_counts (fun e => monthKey e.date) data (monthKeysOf data)
      (nodup_monthKeysOf data) (fun e he => mem_monthKeysOf.mpr ⟨e, he, rfl⟩)
  | daily =>
    simp only [barBuckets] at h
    injection h with h
    subst h
    rw [dailyBuckets, map_total_bucketsGo]
    exact sum_counts (fun e => e.date) data (sortedDates data)
      (nodup_sortedDates data) (fun e he => mem_sortedDates.mpr ⟨e, he, rfl⟩)
  | weekly =>
    simp only [barBuckets] at h
    cases hd : sortedDates data with
    | nil =>
      rw [weeklyBuckets, hd] at h
      exact Except.noConfusion h
    | cons f rest =>
      rw [weeklyBuckets, hd] at h
      injection h with h
      subst h
      rw [map_total_bucketsGo]
      have hmapeq : (weekKeys f ((f :: rest).getLastD 0)).map
          (fun w => (weekEvents data w).length) =
          (weekKeys f ((f :: rest).getLastD 0)).map
          (fun w => (data.filter (fun e => startOfWeek e.date = w)).length) := by
        apply List.map_congr_left
        intro w hw
        rw [weekEvents_eq_filter_startOfWeek (weekKeys_aligned hw)]
      rw [hmapeq]
      apply sum_counts (fun e => startOfWeek e.date) data _
        (nodup_weekKeys f ((f :: rest).getLastD 0))
      intro e he
      rcases sortedDates_bounds hd e he with ⟨h1, h2⟩
      exact startOfWeek_mem_weekKeys h1 h2

theorem barBuckets_core {g : Granularity} {data : List Event} {bs : List Bucket}
    (h : barBuckets g data = .ok bs) :
    ∃ (evsf : ℕ → List Event) (keys : List ℕ),
      bs = bucketsGo g evsf none keys ∧
      ∀ k ∈ keys, g = .daily → 0 < (evsf k).length := by
  cases g with
  | daily =>
    simp only [barBuckets] at h
    injection h with h
    exact ⟨dayEvents data, sortedDates data, h.symm,
      fun k hk _ => dayEvents_length_pos hk⟩
  | monthly =>
    simp only [barBuckets] at h
    injection h with h
    exact ⟨monthEvents data, monthKeysOf data, h.symm,
      fun k hk hg => Granularity.noConfusion hg⟩
  | weekly =>
    simp only [barBuckets] at h
    cases hd : sortedDates data with
    | nil =>
      rw [weeklyBuckets, hd] at h
      exact Except.noConfusion h
    | cons f rest =>
      rw [weeklyBuckets, hd] at h
      injection h with h
      exact ⟨weekEvents data, weekKeys f ((f :: rest).getLastD 0), h.symm,
        fun k hk hg => Granularity.noConfusion hg⟩

/-- C1 (amended): bucket 0 always has trend 0 and direction stable; for
i > 0, `trendPercent = round((total[i] - total[i-1]) / total[i-1] * 100)`
whenever the previous total is positive (always the case for daily and
monthly), and `trendPercent = 0` when the previous total is 0 (reachable
only for weekly, whose guard returns 0 instead of clamping the denominator
to 1). -/
theorem c1_trend_formula (g : Granularity) (data : List Event) (bs : List Bucket)
    (h : barBuckets g data = .ok bs) :
    (∀ hb : 0 < bs.length,
      (bs.get ⟨0, hb⟩).trend = 0 ∧ (bs.get ⟨0, hb⟩).trendDirection = .stable) ∧
    (∀ (i : ℕ) (hi : i + 1 < bs.length),
      (bs.get ⟨i + 1, hi⟩).trend =
        if 0 < (bs.get ⟨i, Nat.lt_of_succ_lt hi⟩).total
        then jsRound ((((bs.get ⟨i + 1, hi⟩).total : ℚ) -
            ((bs.get ⟨i, Nat.lt_of_succ_lt hi⟩).total : ℚ)) /
            ((bs.get ⟨i, Nat.lt_of_succ_lt hi⟩).total : ℚ) * 100)
        else 0) := by
  obtain ⟨evsf, keys, rfl, hp⟩ := barBuckets_core h
  constructor
  · intro hb
    rw [bucketsGo_get g evsf keys none 0 hb, if_pos rfl, mkB_trend,
      mkB_trendDirection, rawTrend_none]
    exact ⟨jsRound_zero, trendDir_zero⟩
  · intro i hi
    have hkeys : i + 1 < keys.length := by
      have := length_bucketsGo g evsf none keys
      omega
    rw [bucketsGo_get g evsf keys none (i + 1) hi,
      bucketsGo_get g evsf keys none i (Nat.lt_of_succ_lt hi),
      if_neg (Nat.succ_ne_zero i)]
    simp only [Nat.add_sub_cancel]
    rw [mkB_trend, mkB_total, mkB_total]
    exact trend_value_cases g _ _ (fun hg => hp _ (getD_mem (by omega)) hg)

/-- C1 witness: the weekly buckets of `wex` instantiate the trend formula
(bucket 0 stable with trend 0, bucket 1 given by the formula). -/
theorem c1_trend_formula_witness :
    (wbs.get ⟨0, by decide⟩).trend = 0 ∧
    (wbs.get ⟨0, by decide⟩).trendDirection = .stable ∧
    (wbs.get ⟨1, by decide⟩).trend =
      (if 0 < (wbs.get ⟨0, by decide⟩).total
       then jsRound ((((wbs.get ⟨1, by decide⟩).total : ℚ) -
           ((wbs.get ⟨0, by decide⟩).total : ℚ)) /
           ((wbs.get ⟨0, by decide⟩).total : ℚ) * 100)
       else 0) := by
  have h := c1_trend_formula .weekly wex wbs rfl
  exact ⟨(h.1 (by decide)).1, (h.1 (by decide)).2, h.2 0 (by decide)⟩

/-- C1 counterexample: for `c1ex` the weekly totals are [1, 0, 1]; the
bucket after the empty week gets trendPercent 0 from the code, while the
claimed clamped formula demands `round((1 - 0) / max(0, 1) * 100) = 100`. -/
theorem c1_counterexample :
    (barBuckets .weekly c1ex).map (fun bs => bs.map Bucket.total) = .ok [1, 0, 1] ∧
    (barBuckets .weekly c1ex).map (fun bs => bs.map Bucket.trend) = .ok [0, -100, 0] ∧
    jsRound (((1 : ℚ) - (0 : ℚ)) / max (0 : ℚ) 1 * 100) = 100 := by
  refine ⟨rfl, ?_, by norm_num [jsRound]⟩
  have hb : barBuckets .weekly c1ex = .ok
      [mkB .weekly none 0 (weekEvents c1ex 0),
       mkB .weekly (some ((weekEvents c1ex 0).length)) 7 (weekEvents c1ex 7),
       mkB .weekly (some ((weekEvents c1ex 7).length)) 14 (weekEvents c1ex 14)] := rfl
  rw [hb]
  simp only [Except.map, List.map_cons, List.map_nil, mkB_trend]
  rw [show (weekEvents c1ex 0).length = 1 from rfl,
    show (weekEvents c1ex 7).length = 0 from rfl,
    show (weekEvents c1ex 14).length = 1 from rfl]
  have t0 : jsRound (rawTrend .weekly none 1) = 0 := by
    rw [rawTrend_none]
    exact jsRound_zero
  have t1 : jsRound (rawTrend .weekly (some 1) 0) = -100 := by
    simp only [rawTrend]
    norm_num [jsRound]
  have t2 : jsRound (rawTrend .weekly (some 0) 1) = 0 := by
    simp only [rawTrend]
    norm_num [jsRound]
  rw [t0, t1, t2]

/-- C4 (amended): trendDirection is computed from the unrounded raw trend,
so it equals the comparison of adjacent totals — up when the previous total
is positive and the current is larger, down when it is smaller, stable
otherwise — independently of the rounded trendPercent. -/
theorem c4_direction (g : Granularity) (data : List Event) (bs : List Bucket)
    (h : barBuckets g data = .ok bs) (i : ℕ) (hi : i + 1 < bs.length) :
    (bs.get ⟨i + 1, hi⟩).trendDirection =
      if 0 < (bs.get ⟨i, Nat.lt_of_succ_lt hi⟩).total ∧
          (bs.get ⟨i, Nat.lt_of_succ_lt hi⟩).total < (bs.get ⟨i + 1, hi⟩).total
      then .up
      else if 0 < (bs.get ⟨i, Nat.lt_of_succ_lt hi⟩).total ∧
          (bs.get ⟨i + 1, hi⟩).total < (bs.get ⟨i, Nat.lt_of_succ_lt hi⟩).total
      then .down
      else .stable := by
  obtain ⟨evsf, keys, rfl, hp⟩ := barBuckets_core h
  have hkeys : i + 1 < keys.length := by
    have := length_bucketsGo g evsf none keys
    omega
  rw [bucketsGo_get g evsf keys none (i + 1) hi,
    bucketsGo_get g evsf keys none i (Nat.lt_of_succ_lt hi),
    if_neg (Nat.succ_ne_zero i)]
  simp only [Nat.add_sub_cancel]
  rw [mkB_trendDirection, mkB_total, mkB_total]
  exact trend_dir_cases g _ _ (fun hg => hp _ (getD_mem (by omega)) hg)

/-- C4 witness: the weekly buckets of `wex` instantiate the direction rule
at index 1. -/
theorem c4_direction_witness :
    (wbs.get ⟨1, by decide⟩).trendDirection =
      if 0 < (wbs.get ⟨0, by decide⟩).total ∧
          (wbs.get ⟨0, by decide⟩).total < (wbs.get ⟨1, by decide⟩).total
      then .up
      else if 0 < (wbs.get ⟨0, by decide⟩).total ∧
          (wbs.get ⟨1, by decide⟩).total < (wbs.get ⟨0, by decide⟩).total
      then .down
      else .stable :=
  c4_direction .weekly wex wbs rfl 0 (by decide)

set_option maxRecDepth 100000 in
/-- C4 counterexample: on `c4ex` the second daily bucket has rounded
trendPercent 0 (raw change 100/201 rounds to 0) yet trendDirection up,
contradicting the claim that direction is determined by the rounded value. -/
theorem c4_counterexample :
    (dailyBuckets c4ex).map Bucket.total = [201, 202] ∧
    (dailyBuckets c4ex).map Bucket.trend = [0, 0] ∧
    (dailyBuckets c4ex).map Bucket.trendDirection = [.stable, .up] := by
  have hb : dailyBuckets c4ex =
      [mkB .daily none 10 (dayEvents c4ex 10),
       mkB .daily (some ((dayEvents c4ex 10).length)) 11 (dayEvents c4ex 11)] := rfl
  have l1 : (dayEvents c4ex 10).length = 201 := rfl
  have l2 : (dayEvents c4ex 11).length = 202 := rfl
  refine ⟨?_, ?_, ?_⟩
  · rw [hb]
    simp only [List.map_cons, List.map_nil, mkB_total]
    rw [l1, l2]
  · rw [hb]
    simp only [List.map_cons, List.map_nil, mkB_trend]
    rw [l1, l2, rawTrend_none]
    have t2 : jsRound (rawTrend .daily (some 201) 202) = 0 := by
      simp only [rawTrend]
      norm_num [jsRound]
    rw [t2, jsRound_zero]
  · rw [hb]
    simp only [List.map_cons, List.map_nil, mkB_trendDirection]
    rw [l1, l2, rawTrend_none]
    have d2 : trendDir (rawTrend .daily (some 201) 202) = .up := by
      have hq : rawTrend .daily (some 201) 202 = 100 / 201 := by
        simp only [rawTrend]
        norm_num
      rw [hq, trendDir]
      norm_num
    rw [d2, trendDir_zero]

/-- C2 (amended): the daily bucket sequence has exactly one bucket per
distinct observed event day, in chronological order; days without events
are omitted, and hence every daily bucket has total at least 1. -/
theorem c2_daily_observed_only (data : List Event) :
    (dailyBuckets data).map Bucket.period = sortedDates data ∧
    ∀ b ∈ dailyBuckets data,
      b.total = (dayEvents data b.period).length ∧ 1 ≤ b.total := by
  constructor
  · rw [dailyBuckets, map_period_bucketsGo]
  · intro b hb
    rcases mem_bucketsGo hb with ⟨k, hk, q, rfl⟩
    rw [mkB_total, mkB_period]
    exact ⟨rfl, dayEvents_length_pos hk⟩

/-- C2 witness: the daily buckets of `wex` instantiate the amended claim at
the first bucket. -/
theorem c2_daily_observed_only_witness :
    (dailyBuckets wex).map Bucket.period = sortedDates wex ∧
    wb1.total = (dayEvents wex wb1.period).length ∧ 1 ≤ wb1.total := by
  refine ⟨(c2_daily_observed_only wex).1, (c2_daily_observed_only wex).2 wb1 ?_⟩
  rw [show dailyBuckets wex = wb1 ::
    [mkB .daily (some ((dayEvents wex 19727).length)) 19735 (dayEvents wex 19735)] from rfl]
  exact List.mem_cons_self _ _

/-- C2 counterexample: events on 2024-01-01 and 2024-01-03 with no event on
2024-01-02 produce only 2 daily buckets (days 19727 and 19729): the empty
middle day is omitted, not emitted as a zero-total bucket, so the claimed
3-bucket sequence is not produced. -/
theorem c2_counterexample :
    (dailyBuckets c2ex).map Bucket.period = [19727, 19729] ∧
    (dailyBuckets c2ex).length = 2 :=
  ⟨rfl, rfl⟩

/-- C3: on the empty input the daily and monthly bar passes and the heatmap
pass at every granularity return empty sequences, but the weekly bar pass
raises (modelled as `Except.error`): `dates[0]` is undefined and
`eachWeekOfInterval` throws a RangeError instead of returning an empty
bucket sequence. -/
theorem c3_empty_input_eval :
    dailyBuckets [] = [] ∧ monthlyBuckets [] = [] ∧
    weeklyBuckets [] = .error "Invalid interval" ∧
    gridData .daily [] = [] ∧ gridData .weekly [] = [] ∧ gridData .monthly [] = [] :=
  ⟨rfl, rfl, rfl, rfl, rfl, rfl⟩

/-- C9: every monthly bucket is keyed by a month that contains at least one
event, so its total is at least 1 and in particular the monthly trend
division `(current.total - previous.total) / previous.total` (which has no
`max(..., 1)` clamp) never sees a zero previous total. -/
theorem c9_monthly_total_pos (data : List Event) :
    ∀ b ∈ monthlyBuckets data, 1 ≤ b.total :=
  fun _ hb => monthlyBuckets_total_pos hb

/-- C9 witness: the single monthly bucket of `wex` has total 2 ≥ 1. -/
theorem c9_monthly_total_pos_witness : 1 ≤ wmb.total := by
  have hmem : wmb ∈ monthlyBuckets wex := by
    rw [show monthlyBuckets wex = [wmb] from rfl]
    exact List.mem_cons_self _ _
  exact c9_monthly_total_pos wex wmb hmem

theorem nested_foldr_max {α : Type} (L : List α) (f : α → List ℕ) :
    (L.map (fun x => (f x).foldr max 1)).foldr max 1 =
      max (listMax ((L.map f).flatten)) 1 := by
  induction L with
  | nil => simp [listMax]
  | cons a L ih =>
    simp only [List.map_cons, List.foldr_cons, List.flatten_cons]
    rw [ih, foldr_max_eq_max_listMax, listMax_append]
    omega

theorem dominantStatus_spec (evs : List Event) :
    ((∃ e ∈ evs, e.status = .fail) → dominantStatus evs = .fail) ∧
    ((∀ e ∈ evs, e.status ≠ .fail) → (∃ e ∈ evs, e.status = .warning) →
      dominantStatus evs = .warning) ∧
    ((∀ e ∈ evs, e.status ≠ .fail) → (∀ e ∈ evs, e.status ≠ .warning) →
      dominantStatus evs = .success) := by
  unfold dominantStatus
  refine ⟨fun h => ?_, fun hn h => ?_, fun hn hw => ?_⟩
  · rw [if_pos (statusCount_pos_iff.mpr h)]
  · have h1 : ¬ 0 < statusCount evs .fail := by
      intro hf
      rcases statusCount_pos_iff.mp hf with ⟨e, he, hs⟩
      exact hn e he hs
    rw [if_neg h1, if_pos (statusCount_pos_iff.mpr h)]
  · have h1 : ¬ 0 < statusCount evs .fail := by
      intro hf
      rcases statusCount_pos_iff.mp hf with ⟨e, he, hs⟩
      exact hn e he hs
    have h2 : ¬ 0 < statusCount evs .warning := by
      intro hf
      rcases statusCount_pos_iff.mp hf with ⟨e, he, hs⟩
      exact hw e he hs
    rw [if_neg h1, if_neg h2]

theorem mem_gridDaily {data : List Event} {cell : Cell} :
    cell ∈ gridDaily data ↔
      ∃ type ∈ heatTypes data, ∃ p ∈ sortedDates data,
        cell = mkCell type p (dayCellEvents data type p) (dailyMaxCount data type) :=
  mem_grid_iff (heatTypes data) (sortedDates data)
    (fun t p => dayCellEvents data t p) (fun t => dailyMaxCount data t)

theorem mem_gridMonthly {data : List Event} {cell : Cell} :
    cell ∈ gridMonthly data ↔
      ∃ type ∈ heatTypes data, ∃ p ∈ heatMonths data,
        cell = mkCell type p (monthCellEvents data type p) (monthlyMaxCount data type) :=
  mem_grid_iff (heatTypes data) (heatMonths data)
    (fun t p => monthCellEvents data t p) (fun t => monthlyMaxCount data t)

theorem mem_gridWeekly {data : List Event} {cell : Cell} :
    cell ∈ gridWeekly data ↔
      ∃ type ∈ heatTypes data, ∃ p ∈ heatWeeks data,
        cell = mkCell type p (weekCellEvents data type p) (weeklyMaxCount data) :=
  mem_grid_iff (heatTypes data) (heatWeeks data)
    (fun t p => weekCellEvents data t p) (fun _ => weeklyMaxCount data)

/-- C5: every heatmap cell has
`intensity = count / max(comparison-set maximum, 1)`, where the comparison
set is all bins of the same activity type across all periods for daily and
monthly granularity, and every (activityType, week) combination across all
activity types for weekly granularity. -/
theorem c5_intensity_denominator (g : Granularity) (data : List Event) (cell : Cell)
    (hc : cell ∈ gridData g data) :
    cell.intensity = (cell.count : ℚ) / (claimDenom g data cell.activityType : ℚ) := by
  cases g with
  | daily =>
    rcases mem_gridDaily.mp hc with ⟨type, htype, p, hp, rfl⟩
    rw [mkCell_count, mkCell_activityType]
    have hden : dailyMaxCount data type = claimDenom .daily data type :=
      foldr_max_eq_max_listMax 1 _
    by_cases h : 0 < (dayCellEvents data type p).length
    · rw [mkCell_intensity_of_pos _ _ _ h, hden]
    · rw [mkCell_intensity_of_zero _ _ _ h]
      have hz : (dayCellEvents data type p).length = 0 := by omega
      rw [hz]
      norm_num
  | monthly =>
    rcases mem_gridMonthly.mp hc with ⟨type, htype, p, hp, rfl⟩
    rw [mkCell_count, mkCell_activityType]
    have hden : monthlyMaxCount data type = claimDenom .monthly data type :=
      foldr_max_eq_max_listMax 1 _
    by_cases h : 0 < (monthCellEvents data type p).length
    · rw [mkCell_intensity_of_pos _ _ _ h, hden]
    · rw [mkCell_intensity_of_zero _ _ _ h]
      have hz : (monthCellEvents data type p).length = 0 := by omega
      rw [hz]
      norm_num
  | weekly =>
    rcases mem_gridWeekly.mp hc with ⟨type, htype, p, hp, rfl⟩
    rw [mkCell_count, mkCell_activityType]
    have hden : weeklyMaxCount data = claimDenom .weekly data type :=
      nested_foldr_max (heatTypes data)
        (fun t => (heatWeeks data).map (fun w => (weekCellEvents data t w).length))
    by_cases h : 0 < (weekCellEvents data type p).length
    · rw [mkCell_intensity_of_pos _ _ _ h, hden]
    · rw [mkCell_intensity_of_zero _ _ _ h]
      have hz : (weekCellEvents data type p).length = 0 := by omega
      rw [hz]
      norm_num

/-- C5 witness: the single daily cell of `hex1` satisfies the denominator
description. -/
theorem c5_intensity_denominator_witness :
    hcell.intensity = (hcell.count : ℚ) / (claimDenom .daily hex1 hcell.activityType : ℚ) := by
  apply c5_intensity_denominator .daily hex1 hcell
  rw [show gridData .daily hex1 = [hcell] from rfl]
  exact List.mem_cons_self _ _

/-- C6: in every non-empty heatmap cell the dominant status follows the
fixed priority fail > warning > success: any fail event makes the cell
fail; otherwise any warning event makes it warning; otherwise success. -/
theorem c6_dominant_status (g : Granularity) (data : List Event) (cell : Cell)
    (hc : cell ∈ gridData g data) (hpos : 0 < cell.count) :
    ((∃ e ∈ cell.events, e.status = .fail) → cell.status = some .fail) ∧
    ((∀ e ∈ cell.events, e.status ≠ .fail) → (∃ e ∈ cell.events, e.status = .warning) →
      cell.status = some .warning) ∧
    ((∀ e ∈ cell.events, e.status ≠ .fail) → (∀ e ∈ cell.events, e.status ≠ .warning) →
      cell.status = some .success) := by
  have hcell : ∃ t p evs den, cell = mkCell t p evs den := by
    cases g with
    | daily =>
      rcases mem_gridDaily.mp hc with ⟨t, _, p, _, rfl⟩
      exact ⟨_, _, _, _, rfl⟩
    | monthly =>
      rcases mem_gridMonthly.mp hc with ⟨t, _, p, _, rfl⟩
      exact ⟨_, _, _, _, rfl⟩
    | weekly =>
      rcases mem_gridWeekly.mp hc with ⟨t, _, p, _, rfl⟩
      exact ⟨_, _, _, _, rfl⟩
  rcases hcell with ⟨t, p, evs, den, rfl⟩
  rw [mkCell_count] at hpos
  rw [mkCell_events, mkCell_status_of_pos _ _ _ hpos]
  have hspec := dominantStatus_spec evs
  refine ⟨fun h => ?_, fun hn h => ?_, fun hn hw => ?_⟩
  · rw [hspec.1 h]
  · rw [hspec.2.1 hn h]
  · rw [hspec.2.2 hn hw]

/-- C6 witness: the single daily cell of `hex1` contains a fail event and
reports dominant status fail. -/
theorem c6_dominant_status_witness :
    ((∃ e ∈ hcell.events, e.status = .fail) → hcell.status = some .fail) ∧
    ((∀ e ∈ hcell.events, e.status ≠ .fail) → (∃ e ∈ hcell.events, e.status = .warning) →
      hcell.status = some .warning) ∧
    ((∀ e ∈ hcell.events, e.status ≠ .fail) → (∀ e ∈ hcell.events, e.status ≠ .warning) →
      hcell.status = some .success) := by
  have hmem : hcell ∈ gridData .daily hex1 := by
    rw [show gridData .daily hex1 = [hcell] from rfl]
    exact List.mem_cons_self _ _
  exact c6_dominant_status .daily hex1 hcell hmem (by decide)

/-- C7: every heatmap cell has intensity in [0, 1], with intensity 0 exactly
when the cell is empty (the count never exceeds the normalization
denominator). -/
theorem c7_intensity_bounds (g : Granularity) (data : List Event) (cell : Cell)
    (hc : cell ∈ gridData g data) :
    0 ≤ cell.intensity ∧ cell.intensity ≤ 1 ∧ (cell.intensity = 0 ↔ cell.count = 0) := by
  have hcore : ∃ t p evs den, cell = mkCell t p evs den ∧ 1 ≤ den ∧ evs.length ≤ den := by
    cases g with
    | daily =>
      rcases mem_gridDaily.mp hc with ⟨type, htype, p, hp, rfl⟩
      exact ⟨_, _, _, _, rfl, init_le_foldr_max 1 _,
        le_foldr_max (List.mem_map.mpr ⟨p, hp, rfl⟩)⟩
    | monthly =>
      rcases mem_gridMonthly.mp hc with ⟨type, htype, p, hp, rfl⟩
      exact ⟨_, _, _, _, rfl, init_le_foldr_max 1 _,
        le_foldr_max (List.mem_map.mpr ⟨p, hp, rfl⟩)⟩
    | weekly =>
      rcases mem_gridWeekly.mp hc with ⟨type, htype, p, hp, rfl⟩
      refine ⟨_, _, _, _, rfl, init_le_foldr_max 1 _, ?_⟩
      have h1 : (weekCellEvents data type p).length ≤
          ((heatWeeks data).map (fun w => (weekCellEvents data type w).length)).foldr max 1 :=
        le_foldr_max (List.mem_map.mpr ⟨p, hp, rfl⟩)
      have h2 : ((heatWeeks data).map
          (fun w => (weekCellEvents data type w).length)).foldr max 1 ≤ weeklyMaxCount data :=
        le_foldr_max (List.mem_map.mpr ⟨type, htype, rfl⟩)
      exact le_trans h1 h2
  rcases hcore with ⟨t, p, evs, den, rfl, hden, hlen⟩
  rw [mkCell_count]
  by_cases h : 0 < evs.length
  · rw [mkCell_intensity_of_pos _ _ _ h]
    have hdq : (0 : ℚ) < (den : ℚ) := by
      have : 0 < den := by omega
      exact_mod_cast this
    have hle : ((evs.length : ℕ) : ℚ) ≤ (den : ℚ) := by exact_mod_cast hlen
    refine ⟨div_nonneg (Nat.cast_nonneg _) (le_of_lt hdq), (div_le_one hdq).mpr hle, ?_⟩
    constructor
    · intro h0
      rw [div_eq_zero_iff] at h0
      rcases h0 with h0 | h0
      · exact_mod_cast h0
      · exact absurd h0 (ne_of_gt hdq)
    · intro h0
      rw [h0]
      norm_num
  · rw [mkCell_intensity_of_zero _ _ _ h]
    have hz : evs.length = 0 := by omega
    refine ⟨le_refl 0, by norm_num, ?_⟩
    simp [hz]

/-- C7 witness: the single daily cell of `hex1` has intensity in [0, 1] and
the zero-intensity criterion. -/
theorem c7_intensity_bounds_witness :
    0 ≤ hcell.intensity ∧ hcell.intensity ≤ 1 ∧ (hcell.intensity = 0 ↔ hcell.count = 0) := by
  apply c7_intensity_bounds .daily hex1 hcell
  rw [show gridData .daily hex1 = [hcell] from rfl]
  exact List.mem_cons_self _ _

/-- C10: every heatmap cell counts exactly its events sequence, and each of
those events matches both the activity type of the cell and the period of
the cell (its day, its month key, or its closed week window). -/
theorem c10_cell_consistency (g : Granularity) (data : List Event) (cell : Cell)
    (hc : cell ∈ gridData g data) :
    cell.count = cell.events.length ∧
    ∀ e ∈ cell.events, e.activityType = cell.activityType ∧ periodMatch g cell.period e := by
  cases g with
  | daily =>
    rcases mem_gridDaily.mp hc with ⟨type, htype, p, hp, rfl⟩
    rw [mkCell_count, mkCell_events, mkCell_activityType, mkCell_period]
    refine ⟨rfl, fun e he => ?_⟩
    rcases List.mem_filter.mp he with ⟨_, hpred⟩
    simp only [decide_eq_true_eq] at hpred
    exact ⟨hpred.2, hpred.1⟩
  | monthly =>
    rcases mem_gridMonthly.mp hc with ⟨type, htype, p, hp, rfl⟩
    rw [mkCell_count, mkCell_events, mkCell_activityType, mkCell_period]
    refine ⟨rfl, fun e he => ?_⟩
    rcases List.mem_filter.mp he with ⟨_, hpred⟩
    simp only [decide_eq_true_eq] at hpred
    exact ⟨hpred.2, hpred.1⟩
  | weekly =>
    rcases mem_gridWeekly.mp hc with ⟨type, htype, p, hp, rfl⟩
    rw [mkCell_count, mkCell_events, mkCell_activityType, mkCell_period]
    refine ⟨rfl, fun e he => ?_⟩
    rcases List.mem_filter.mp he with ⟨_, hpred⟩
    simp only [decide_eq_true_eq] at hpred
    exact ⟨hpred.1, hpred.2⟩

/-- C10 witness: the single daily cell of `hex1` instantiates the cell
consistency invariant. -/
theorem c10_cell_consistency_witness :
    hcell.count = hcell.events.length ∧
    ∀ e ∈ hcell.events, e.activityType = hcell.activityType ∧
      periodMatch .daily hcell.period e := by
  apply c10_cell_consistency .daily hex1 hcell
  rw [show gridData .daily hex1 = [hcell] from rfl]
  exact List.mem_cons_self _ _

/-- C8 witness: the weekly buckets of `wex` conserve the event count. -/
theorem c8_total_conservation_witness :
    (wbs.map Bucket.total).sum = wex.length :=
  c8_total_conservation .weekly wex wbs rfl
